import Mathlib

/-!
Verification of the usage-aggregation core of `limitless-usage-stats.py`.

The Python program downloads tournament standings and per-team roster
documents, aggregates per-Pokemon usage statistics, selects the top-cut
subset of teams, ranks the statistics, and renders a comparative scatter
plot.  This file embeds the pure computational core of that program:

* the per-team roster is modelled as a list of `PokemonRecord`s (the data
  the HTML extraction yields for one `div.pkmn` block: name, item,
  ability, optional tera type, attack list);
* Python dictionaries (which preserve insertion order) are modelled as
  association lists, with `add_or_update_dict` mirroring the function of
  the same name in the source;
* `calculate_usage_statistics` mirrors the accumulation loop of the
  source function of the same name;
* `get_top_cut_teams` mirrors the validated prefix selection (the
  re-prompt loop on invalid input is modelled as `none`);
* the ranking comparators, `get_percentage`, and the label-padding loop
  of `create_graph` are embedded over `ℚ` (IEEE double arithmetic of the
  source is modelled by exact rational arithmetic; Python `round` is
  round-half-to-even).
-/

/-! ## Constants of the source file -/

def DEFAULT_LABEL_PADDING : ℚ := 15 / 10000

def LABEL_PADDING_INCREMENT : ℚ := 25 / 10000

def POINT_DISTANCE_LABEL_ADJUSTMENT_THRESHOLD : ℚ := 1 / 100

/-! ## Data model -/

/-- One roster entry as extracted from a teamsheet document: the fields
read by the loop body of `calculate_usage_statistics` (name, item,
ability, optional tera type, attack list). -/
structure PokemonRecord where
  name : String
  item : String
  ability : String
  tera : Option String
  attacks : List String
deriving DecidableEq, Repr

/-- A team (roster) is the ordered list of its entries. -/
abbrev Team := List PokemonRecord

/-- Mirror of the Python class `PokemonStats`: Python dicts are modelled
as insertion-ordered association lists. -/
structure PokemonStats where
  count : Nat
  item : List (String × Nat)
  ability : List (String × Nat)
  tera : List (String × Nat)
  attacks : List (String × Nat)
  teammates : List (String × Nat)
  placings : List Nat
deriving DecidableEq, Repr

/-- `PokemonStats.__init__`: count 0, empty dicts, empty placings. -/
def PokemonStats.initial : PokemonStats :=
  { count := 0, item := [], ability := [], tera := [], attacks := [],
    teammates := [], placings := [] }

/-! ## Dictionary operations -/

/-- Mirror of the source function `add_or_update_dict`: increment the
value at `key` in place if present, else append `(key, 1)`. -/
def add_or_update_dict : List (String × Nat) → String → List (String × Nat)
  | [], key => [(key, 1)]
  | e :: rest, key =>
      if e.1 = key then (e.1, e.2 + 1) :: rest
      else e :: add_or_update_dict rest key

/-- Dictionary lookup with default 0 (`dict.get(key, 0)`). -/
def dictGet : List (String × Nat) → String → Nat
  | [], _ => 0
  | e :: rest, key => if e.1 = key then e.2 else dictGet rest key

/-- The usage table `dict[str, PokemonStats]`, insertion ordered. -/
abbrev UsageTable := List (String × PokemonStats)

/-- Dictionary lookup in a usage table (`dict[name]`, `None` = KeyError). -/
def tableGet? : UsageTable → String → Option PokemonStats
  | [], _ => none
  | e :: rest, name => if e.1 = name then some e.2 else tableGet? rest name

/-- The look-up-or-create-then-mutate step of `calculate_usage_statistics`:
apply `f` to the entry stored under `name`, creating it from
`PokemonStats.initial` (appended at the end, as Python dict insertion
does) when absent. -/
def tableUpsert (name : String) (f : PokemonStats → PokemonStats) : UsageTable → UsageTable
  | [] => [(name, f PokemonStats.initial)]
  | e :: rest =>
      if e.1 = name then (e.1, f e.2) :: rest
      else e :: tableUpsert name f rest

/-! ## The aggregation loop (`calculate_usage_statistics`) -/

/-- The teammate list built for one roster entry: names of every OTHER
entry of the same roster, compared by name inequality
(`[get_pokemon_name(p) for p in pokemon_used if not get_pokemon_name(p) == pokemon_name]`). -/
def teammate_names (pokemon_used : Team) (pokemon_name : String) : List String :=
  (pokemon_used.filter (fun p => !(p.name == pokemon_name))).map (fun p => p.name)

/-- The body of the inner loop of `calculate_usage_statistics` for one
roster entry `p` of the roster `pokemon_used` of the team at 0-based
standings index `placing`: increment `count`, update the item / ability /
tera dicts (absent tera replaced by the `'default'` token), bump every
attack, bump every teammate name, append the 1-based placing. -/
def updatePokemonStats (pokemon_used : Team) (placing : Nat) (p : PokemonRecord)
    (s : PokemonStats) : PokemonStats :=
  { count := s.count + 1
    item := add_or_update_dict s.item p.item
    ability := add_or_update_dict s.ability p.ability
    tera := add_or_update_dict s.tera (p.tera.getD "default")
    attacks := p.attacks.foldl add_or_update_dict s.attacks
    teammates := (teammate_names pokemon_used p.name).foldl add_or_update_dict s.teammates
    placings := s.placings ++ [placing + 1] }

/-- Process one roster entry: fetch-or-create its stats record in the
table and apply the loop body. -/
def processPokemon (pokemon_used : Team) (placing : Nat) (tbl : UsageTable)
    (p : PokemonRecord) : UsageTable :=
  tableUpsert p.name (updatePokemonStats pokemon_used placing p) tbl

/-- Process one team (one iteration of `for placing, team in enumerate(teams)`). -/
def processTeam (tbl : UsageTable) (pt : Nat × Team) : UsageTable :=
  pt.2.foldl (processPokemon pt.2 pt.1) tbl

/-- Mirror of `calculate_usage_statistics`: fold the per-team loop over
the enumerated team list, starting from the empty table. -/
def calculate_usage_statistics (teams : List Team) : UsageTable :=
  teams.enum.foldl processTeam []

/-! ## Top-cut selection (`get_top_cut_teams`) -/

/-- Mirror of `get_top_cut_teams`: the input-validation loop accepts a
requested size only when `0 < top_cut_size ≤ len(teams)` (an invalid
size is re-prompted forever, modelled as `none`), then returns the
prefix `teams[:top_cut_size]`. -/
def get_top_cut_teams {α : Type} (teams : List α) (top_cut_size : Int) : Option (List α) :=
  if top_cut_size ≤ 0 ∨ (teams.length : Int) < top_cut_size then none
  else some (teams.take top_cut_size.toNat)

/-! ## Percentages (`get_percentage`) -/

/-- Python `round` to 0 digits: round half to even (banker's rounding). -/
def roundHalfToEven (q : ℚ) : ℤ :=
  if Int.fract q < 1 / 2 then ⌊q⌋
  else if 1 / 2 < Int.fract q then ⌊q⌋ + 1
  else if ⌊q⌋ % 2 = 0 then ⌊q⌋ else ⌊q⌋ + 1

/-- Python `round(x, 2)`: round to 2 decimal digits, half to even. -/
def pyRound2 (x : ℚ) : ℚ := (roundHalfToEven (x * 100) : ℚ) / 100

/-- Mirror of `get_percentage`: `round(100 * a / b, 2)`. -/
def get_percentage (a b : ℚ) : ℚ := pyRound2 (100 * a / b)

/-! ## Ranking comparators -/

/-- Lexicographic `≤` on a pair, as Python compares key tuples. -/
def lexLEb {α β : Type} [LinearOrder α] [LinearOrder β] (a b : α × β) : Bool :=
  decide (a.1 < b.1) || (decide (a.1 = b.1) && decide (a.2 ≤ b.2))

/-- Mirror of `sort_by_usage_then_alphabetical`: the sort key
`(-count, name)`. -/
def sort_by_usage_then_alphabetical (item : String × PokemonStats) : Int × String :=
  (-(item.2.count : Int), item.1)

/-- The top-level ranking applied by `TournamentUsage.__init__`:
`sorted(table.items(), key=sort_by_usage_then_alphabetical)` (ascending
on the key tuple). -/
def rank_usage (tbl : UsageTable) : UsageTable :=
  tbl.mergeSort (fun a b =>
    lexLEb (sort_by_usage_then_alphabetical a) (sort_by_usage_then_alphabetical b))

/-- Mirror of `order_dict_by_count`:
`sorted(d.items(), key=(count, name), reverse=True)`.  A stable
descending sort by the key tuple places `a` before `b` exactly when
`key b ≤ key a`. -/
def order_dict_by_count (d : List (String × Nat)) : List (String × Nat) :=
  d.mergeSort (fun a b => lexLEb (b.2, b.1) (a.2, a.1))

/-! ## `TournamentUsage` -/

/-- Mirror of the class `TournamentUsage` after `__init__` ran: both
tables are stored already ranked. -/
structure TournamentUsage where
  tournament_id : String
  tournament_name : String
  top_cut_size : Nat
  top_cut_usage : UsageTable
  size : Nat
  all_usage : UsageTable

/-- Mirror of `TournamentUsage.__init__`: sorts both tables with
`sort_by_usage_then_alphabetical`. -/
def TournamentUsage.make (tournament_id tournament_name : String)
    (top_cut_size : Nat) (top_cut_usage : UsageTable)
    (size : Nat) (all_usage : UsageTable) : TournamentUsage :=
  { tournament_id := tournament_id
    tournament_name := tournament_name
    top_cut_size := top_cut_size
    top_cut_usage := rank_usage top_cut_usage
    size := size
    all_usage := rank_usage all_usage }

/-! ## The comparative visualizer (`create_graph`) -/

/-- Mirror of the class `UsagePoint`. -/
structure UsagePoint where
  total_usage_rate : ℚ
  top_cut_usage_rate : ℚ
  label : String
deriving DecidableEq, Repr

/-- The selection of `create_graph`: every key of the top-cut table,
union every key of the full-field table whose usage rate is at least
0.03.  The Python `set` is modelled as a duplicate-free list (table keys
are unique; the second pass skips names already contributed by the
first). -/
def pokemon_to_show (tu : TournamentUsage) : List String :=
  tu.top_cut_usage.map Prod.fst ++
    (tu.all_usage.filter (fun e =>
        decide ((3 : ℚ) / 100 ≤ (e.2.count : ℚ) / (tu.size : ℚ)) &&
          !((tu.top_cut_usage.map Prod.fst).contains e.1))).map Prod.fst

/-- The `UsagePoint` built by `create_graph` for one selected name:
`all_usage[pokemon]` raises `KeyError` when absent (modelled as `none`);
the top-cut rate falls back to 0 when the name is not in the top-cut
table. -/
def build_usage_point (tu : TournamentUsage) (pokemon : String) : Option UsagePoint :=
  match tableGet? tu.all_usage pokemon with
  | none => none
  | some s =>
      some { total_usage_rate := (s.count : ℚ) / (tu.size : ℚ)
             top_cut_usage_rate :=
               match tableGet? tu.top_cut_usage pokemon with
               | some t => (t.count : ℚ) / (tu.top_cut_size : ℚ)
               | none => 0
             label := pokemon }

/-- The point-construction loop of `create_graph` over a name list. -/
def build_usage_points (tu : TournamentUsage) : List String → Option (List UsagePoint)
  | [] => some []
  | n :: ns =>
      match build_usage_point tu n, build_usage_points tu ns with
      | some p, some ps => some (p :: ps)
      | _, _ => none

/-- The comparator of the final `sorted(..., key=(top_cut_usage_rate,
total_usage_rate), reverse=True)` of `create_graph`. -/
def usage_point_desc (a b : UsagePoint) : Bool :=
  lexLEb (b.top_cut_usage_rate, b.total_usage_rate)
    (a.top_cut_usage_rate, a.total_usage_rate)

/-- The ordered point list plotted by `create_graph`: build a point per
selected name, then sort descending by `(top_cut_usage_rate,
total_usage_rate)`. -/
def create_graph_points (tu : TournamentUsage) : Option (List UsagePoint) :=
  (build_usage_points tu (pokemon_to_show tu)).map
    (fun pts => pts.mergeSort usage_point_desc)

/-! ## Adaptive label padding (`create_graph`, plotting loop) -/

/-- Squared rate-space distance between two points.  The source computes
`sqrt((x2-x1)^2 + (y2-y1)^2)` and compares it with the threshold; over
nonnegative reals `sqrt d ≤ t` is equivalent to `d ≤ t^2`, so the
embedding compares squares and stays in `ℚ`. -/
def distSq (a b : UsagePoint) : ℚ :=
  (a.total_usage_rate - b.total_usage_rate) ^ 2 +
    (a.top_cut_usage_rate - b.top_cut_usage_rate) ^ 2

/-- One step of the label-padding loop: grow the running padding by the
fixed increment when the current point is within the proximity threshold
of the previous point, else reset it to the default. -/
def next_label_padding (pad : ℚ) (prev cur : UsagePoint) : ℚ :=
  if distSq cur prev ≤ POINT_DISTANCE_LABEL_ADJUSTMENT_THRESHOLD ^ 2 then
    pad + LABEL_PADDING_INCREMENT
  else DEFAULT_LABEL_PADDING

/-- The paddings used for the second, third, ... points. -/
def label_paddings_from (prev : UsagePoint) (pad : ℚ) : List UsagePoint → List ℚ
  | [] => []
  | q :: qs => next_label_padding pad prev q :: label_paddings_from q (next_label_padding pad prev q) qs

/-- The padding used for each point's label, in plotting order: the
first point uses `DEFAULT_LABEL_PADDING` (the loop's `index > 0` guard
skips the distance test there), each later point updates the running
padding with `next_label_padding`. -/
def label_paddings : List UsagePoint → List ℚ
  | [] => []
  | p :: ps => DEFAULT_LABEL_PADDING :: label_paddings_from p DEFAULT_LABEL_PADDING ps

/-! ## Swiss-cutoff top-cut selection -/

/-- One row of the standings document, as the spec's external interface
describes it: a 1-based final placing and the recorded "rounds survived"
count used by the swiss-cutoff policy. -/
structure CompetitorRow where
  placing : Nat
  rounds : Nat
deriving DecidableEq, Repr

/-- Modelled from the spec: the swiss-cutoff top-cut policy is absent
from `src/limitless-usage-stats.py` (`get_top_cut_teams` implements only
the fixed-size policy), so this follows §4.1 of the design document
literally: given the day-one round count `r1 ≥ 1` (a non-positive value
is a rejected parameter), keep exactly the competitors whose recorded
round count is at least `r1 - 2`, preserving their original order. -/
def select_top_cut_swiss (competitors : List CompetitorRow) (r1 : Int) :
    Option (List CompetitorRow) :=
  if r1 < 1 then none
  else some (competitors.filter (fun c => decide (r1 - 2 ≤ (c.rounds : Int))))

/-! ## Concrete data used by witnesses -/

/-- Scenario points of §8 of the spec: three points 0.005 apart followed
by one 0.05 away. -/
def scenario_p0 : UsagePoint := { total_usage_rate := 0, top_cut_usage_rate := 0, label := "p0" }

def scenario_p1 : UsagePoint := { total_usage_rate := 1 / 200, top_cut_usage_rate := 0, label := "p1" }

def scenario_p2 : UsagePoint := { total_usage_rate := 1 / 100, top_cut_usage_rate := 0, label := "p2" }

def scenario_p3 : UsagePoint := { total_usage_rate := 6 / 100, top_cut_usage_rate := 0, label := "p3" }

def scenario_points : List UsagePoint := [scenario_p0, scenario_p1, scenario_p2, scenario_p3]

/-! ## Derived observers -/

/-- The count stored for a name (0 when the name is absent). -/
def tableCount (tbl : UsageTable) (name : String) : Nat :=
  match tableGet? tbl name with
  | some s => s.count
  | none => 0

/-- Sum of the occurrence counts of a frequency dict. -/
def sumValues (d : List (String × Nat)) : Nat := (d.map Prod.snd).sum

/-- The §3 invariant for one stats record: item, ability and tera
occurrence counts each sum to `count`. -/
def statsBalanced (s : PokemonStats) : Prop :=
  sumValues s.item = s.count ∧ sumValues s.ability = s.count ∧ sumValues s.tera = s.count

/-- The teammate count `A.teammates.get(B, 0)` read off a table (0 when
`A` is absent from the table or `B` absent from its dict). -/
def teammateCount (tbl : UsageTable) (a b : String) : Nat :=
  match tableGet? tbl a with
  | some s => dictGet s.teammates b
  | none => 0

/-- The `TournamentUsage` value `main` builds when the top cut is the
size-`k` prefix of the standings: both tables come from
`calculate_usage_statistics`, the sizes are the two list lengths. -/
def tournament_usage_of (teams : List Team) (k : Nat) (tid tname : String) : TournamentUsage :=
  TournamentUsage.make tid tname
    (teams.take k).length (calculate_usage_statistics (teams.take k))
    teams.length (calculate_usage_statistics teams)

/-! ## Concrete inputs for witnesses -/

def witness_team_foo : Team :=
  [{ name := "Foo", item := "Rod", ability := "Ab", tera := none, attacks := [] }]

def witness_team_bar : Team :=
  [{ name := "Bar", item := "Orb", ability := "Bc", tera := some "Fire", attacks := ["Tackle"] }]

/-- The §8 end-to-end scenario: two competitors bring `Foo` with `Rod`,
one brings `Bar`. -/
def witness_teams : List Team := [witness_team_foo, witness_team_foo, witness_team_bar]

/-- The record `calculate_usage_statistics witness_teams` stores under
`"Foo"`. -/
def witness_foo_stats : PokemonStats :=
  { count := 2, item := [("Rod", 2)], ability := [("Ab", 2)], tera := [("default", 2)],
    attacks := [], teammates := [], placings := [1, 2] }

def witness_stats_one : PokemonStats :=
  { count := 1, item := [("Rod", 1)], ability := [("Ab", 1)], tera := [("default", 1)],
    attacks := [], teammates := [], placings := [1] }

/-- A one-entity tournament summary: entity `"A"` used by 1 of 2 teams
overall and by the single top-cut team. -/
def witness_tu : TournamentUsage :=
  { tournament_id := "t1", tournament_name := "T", top_cut_size := 1,
    top_cut_usage := [("A", witness_stats_one)], size := 2,
    all_usage := [("A", witness_stats_one)] }

/-- The single usage point of `witness_tu`. -/
def witness_point : UsagePoint :=
  { total_usage_rate := 1 / 2, top_cut_usage_rate := 1, label := "A" }

/-- Standings rows for the swiss-cutoff witness: rounds survived 5, 3, 2. -/
def swiss_rows : List CompetitorRow := [⟨1, 5⟩, ⟨2, 3⟩, ⟨3, 2⟩]

/-! ## C7: fixed-size top-cut selection -/

/-- C7 (amended): `get_top_cut_teams` returns the first `k` competitors
in placing order whenever `1 ≤ k ≤ len(competitors)`; in particular it
returns the full input list unchanged when `k` equals the field size and
the field is nonempty; any `k` outside `[1, len(competitors)]` is
rejected (re-prompted, not clamped). -/
theorem get_top_cut_teams_fixed_size {α : Type} (teams : List α) (k : Int) :
    (1 ≤ k → k ≤ (teams.length : Int) →
      get_top_cut_teams teams k = some (teams.take k.toNat)) ∧
    (k = (teams.length : Int) → 1 ≤ (teams.length : Int) →
      get_top_cut_teams teams k = some teams) ∧
    (k < 1 ∨ (teams.length : Int) < k → get_top_cut_teams teams k = none) := by
  refine ⟨fun h1 h2 => ?_, fun h1 h2 => ?_, fun h => ?_⟩
  · rw [get_top_cut_teams, if_neg (by omega)]
  · rw [get_top_cut_teams, if_neg (by omega)]
    have : k.toNat = teams.length := by omega
    rw [this, List.take_length]
  · rw [get_top_cut_teams, if_pos (by omega)]

/-- C7 witness: with three teams and `k = 3` the whole field is
returned. -/
theorem get_top_cut_teams_fixed_size_witness :
    get_top_cut_teams [10, 20, 30] (3 : Int) = some [10, 20, 30] := by
  exact (get_top_cut_teams_fixed_size [10, 20, 30] 3).2.1 (by norm_num) (by norm_num)

/-- C7 counterexample: on an empty field, `k = 0` equals the field size
yet `get_top_cut_teams` rejects it instead of returning the (empty) full
list, so the claim as stated fails in the empty-field corner. -/
theorem get_top_cut_teams_empty_field_counterexample :
    (0 : Int) = (([] : List Nat).length : Int) ∧
      get_top_cut_teams ([] : List Nat) 0 = none ∧
      get_top_cut_teams ([] : List Nat) 0 ≠ some ([] : List Nat) := by
  refine ⟨by simp, by rw [get_top_cut_teams, if_pos (by omega)], ?_⟩
  rw [get_top_cut_teams, if_pos (by omega)]
  exact fun h => Option.noConfusion h

/-! ## C9: percentage rounding -/

/-- Round half to even differs from the true value by at most 1/2. -/
theorem roundHalfToEven_close (q : ℚ) : |(roundHalfToEven q : ℚ) - q| ≤ 1 / 2 := by
  have h0 : (0 : ℚ) ≤ Int.fract q := Int.fract_nonneg q
  have h1 : Int.fract q < 1 := Int.fract_lt_one q
  have hq : (⌊q⌋ : ℚ) = q - Int.fract q := by
    rw [Int.fract]; ring
  rw [roundHalfToEven]
  split
  · rw [abs_le, hq]; constructor <;> linarith
  · split
    · rw [abs_le]; push_cast [hq]; constructor <;> linarith
    · split
      · rw [abs_le, hq]; constructor <;> linarith
      · rw [abs_le]; push_cast [hq]; constructor <;> linarith

/-- `pyRound2` differs from the true value by at most 1/200. -/
theorem pyRound2_close (x : ℚ) : |pyRound2 x - x| ≤ 1 / 200 := by
  have h := roundHalfToEven_close (x * 100)
  have hrw : pyRound2 x - x = ((roundHalfToEven (x * 100) : ℚ) - x * 100) / 100 := by
    rw [pyRound2]; ring
  have habs : |(100 : ℚ)| = 100 := by norm_num
  rw [hrw, abs_div, habs]
  linarith

/-- C9: `get_percentage` is `round(100 * a / b, 2)`: on one-of-three it
yields 33.33, on two-of-three 66.67, and in general it is within half a
hundredth of the exact percentage. -/
theorem get_percentage_rounding :
    get_percentage 1 3 = 3333 / 100 ∧ get_percentage 2 3 = 6667 / 100 ∧
      ∀ a b : ℚ, |get_percentage a b - 100 * a / b| ≤ 1 / 200 := by
  refine ⟨?_, ?_, fun a b => pyRound2_close (100 * a / b)⟩
  · have hfloor : ⌊(100 : ℚ) * 1 / 3 * 100⌋ = 3333 := by
      norm_num [Int.floor_eq_iff]
    have hfract : Int.fract ((100 : ℚ) * 1 / 3 * 100) = 1 / 3 := by
      rw [Int.fract, hfloor]; norm_num
    rw [get_percentage, pyRound2, roundHalfToEven, hfract, if_pos (by norm_num), hfloor]
    norm_num
  · have hfloor : ⌊(100 : ℚ) * 2 / 3 * 100⌋ = 6666 := by
      norm_num [Int.floor_eq_iff]
    have hfract : Int.fract ((100 : ℚ) * 2 / 3 * 100) = 2 / 3 := by
      rw [Int.fract, hfloor]; norm_num
    rw [get_percentage, pyRound2, roundHalfToEven, hfract, if_neg (by norm_num),
      if_pos (by norm_num), hfloor]
    norm_num

/-! ## C8: swiss-cutoff top-cut selection -/

/-- C8: the swiss-cutoff policy (spec-modelled, absent from the source)
retains exactly the competitors with recorded round count at least
`r1 - 2`, preserving order (the result is a sublist); with `r1 = 5` it
keeps exactly those with round count at least 3. -/
theorem select_top_cut_swiss_spec (competitors : List CompetitorRow) (r1 : Int)
    (h : 1 ≤ r1) :
    select_top_cut_swiss competitors r1 =
        some (competitors.filter (fun c => decide (r1 - 2 ≤ (c.rounds : Int)))) ∧
      (competitors.filter (fun c => decide (r1 - 2 ≤ (c.rounds : Int)))).Sublist competitors ∧
      (∀ c : CompetitorRow,
        c ∈ competitors.filter (fun c => decide (r1 - 2 ≤ (c.rounds : Int))) ↔
          c ∈ competitors ∧ r1 - 2 ≤ (c.rounds : Int)) ∧
      select_top_cut_swiss competitors 5 =
        some (competitors.filter (fun c => decide (3 ≤ c.rounds))) := by
  refine ⟨?_, List.filter_sublist competitors, fun c => ?_, ?_⟩
  · rw [select_top_cut_swiss, if_neg (by omega)]
  · simp [List.mem_filter]
  · rw [select_top_cut_swiss, if_neg (by norm_num)]
    have : competitors.filter (fun c => decide ((5 : Int) - 2 ≤ (c.rounds : Int))) =
        competitors.filter (fun c => decide (3 ≤ c.rounds)) := by
      apply List.filter_congr
      intro c _
      rw [decide_eq_decide]
      omega
    rw [this]

/-- C8 witness: with day-one rounds `r1 = 5`, the rows with recorded
round counts 5 and 3 survive and the row with 2 is dropped. -/
theorem select_top_cut_swiss_witness :
    select_top_cut_swiss swiss_rows 5 = some [⟨1, 5⟩, ⟨2, 3⟩] := by
  have h := (select_top_cut_swiss_spec swiss_rows 5 (by norm_num)).2.2.2
  rw [h]
  decide

/-! ## C2: ranking order and tie-break directions -/

/-- `lexLEb` is transitive. -/
theorem lexLEb_trans {α β : Type} [LinearOrder α] [LinearOrder β] (a b c : α × β)
    (hab : lexLEb a b = true) (hbc : lexLEb b c = true) : lexLEb a c = true := by
  simp only [lexLEb, Bool.or_eq_true, Bool.and_eq_true, decide_eq_true_eq] at hab hbc ⊢
  rcases hab with h1 | ⟨h1, h2⟩ <;> rcases hbc with h3 | ⟨h3, h4⟩
  · exact Or.inl (lt_trans h1 h3)
  · exact Or.inl (h3 ▸ h1)
  · exact Or.inl (h1 ▸ h3)
  · exact Or.inr ⟨h1.trans h3, le_trans h2 h4⟩

/-- `lexLEb` is total. -/
theorem lexLEb_total {α β : Type} [LinearOrder α] [LinearOrder β] (a b : α × β) :
    (lexLEb a b || lexLEb b a) = true := by
  simp only [lexLEb, Bool.or_eq_true, Bool.and_eq_true, decide_eq_true_eq]
  rcases lt_trichotomy a.1 b.1 with h | h | h
  · exact Or.inl (Or.inl h)
  · rcases le_total a.2 b.2 with h2 | h2
    · exact Or.inl (Or.inr ⟨h, h2⟩)
    · exact Or.inr (Or.inr ⟨h.symm, h2⟩)
  · exact Or.inr (Or.inl h)

/-- The top-level comparator holds iff count is strictly larger or counts
tie and the name is alphabetically no later (ascending-name tie-break). -/
theorem top_level_key_le_iff (x y : String × PokemonStats) :
    lexLEb (sort_by_usage_then_alphabetical x) (sort_by_usage_then_alphabetical y) = true ↔
      (y.2.count < x.2.count ∨ (x.2.count = y.2.count ∧ x.1 ≤ y.1)) := by
  simp only [lexLEb, sort_by_usage_then_alphabetical, Bool.or_eq_true, Bool.and_eq_true,
    decide_eq_true_eq]
  constructor
  · rintro (h | ⟨h1, h2⟩)
    · exact Or.inl (by omega)
    · exact Or.inr ⟨by omega, h2⟩
  · rintro (h | ⟨h1, h2⟩)
    · exact Or.inl (by omega)
    · exact Or.inr ⟨by omega, h2⟩

/-- The nested comparator holds iff count is strictly larger or counts
tie and the name is alphabetically no earlier (descending-name
tie-break, from the blanket `reverse=True`). -/
theorem nested_key_le_iff (x y : String × Nat) :
    lexLEb (y.2, y.1) (x.2, x.1) = true ↔
      (y.2 < x.2 ∨ (x.2 = y.2 ∧ y.1 ≤ x.1)) := by
  simp only [lexLEb, Bool.or_eq_true, Bool.and_eq_true, decide_eq_true_eq]
  constructor
  · rintro (h | ⟨h1, h2⟩)
    · exact Or.inl h
    · exact Or.inr ⟨h1.symm, h2⟩
  · rintro (h | ⟨h1, h2⟩)
    · exact Or.inl h
    · exact Or.inr ⟨h1.symm, h2⟩

/-- C2: both rankings are permutations of their input ordered by count
descending, but on count ties the top-level ranking
(`sort_by_usage_then_alphabetical`) puts the alphabetically earlier name
first while every nested frequency-map ranking (`order_dict_by_count`,
used for item, ability, tera, attack and teammate dicts) puts the
alphabetically later name first. -/
theorem ranking_tie_break_directions (tbl : UsageTable) (d : List (String × Nat)) :
    (rank_usage tbl).Perm tbl ∧
      (rank_usage tbl).Pairwise (fun x y =>
        y.2.count < x.2.count ∨ (x.2.count = y.2.count ∧ x.1 ≤ y.1)) ∧
      (order_dict_by_count d).Perm d ∧
      (order_dict_by_count d).Pairwise (fun x y =>
        y.2 < x.2 ∨ (x.2 = y.2 ∧ y.1 ≤ x.1)) := by
  refine ⟨List.mergeSort_perm tbl _, ?_, List.mergeSort_perm d _, ?_⟩
  · have h := @List.sorted_mergeSort (String × PokemonStats)
      (fun a b =>
        lexLEb (sort_by_usage_then_alphabetical a) (sort_by_usage_then_alphabetical b))
      (fun a b c hab hbc => lexLEb_trans _ _ _ hab hbc)
      (fun a b => lexLEb_total _ _) tbl
    exact h.imp (fun hxy => (top_level_key_le_iff _ _).mp hxy)
  · have h := @List.sorted_mergeSort (String × Nat)
      (fun a b => lexLEb (b.2, b.1) (a.2, a.1))
      (fun a b c hab hbc => lexLEb_trans _ _ _ hbc hab)
      (fun a b => by rw [Bool.or_comm]; exact lexLEb_total _ _) d
    exact h.imp (fun hxy => (nested_key_le_iff _ _).mp hxy)

/-! ## C1: counts count competitors -/

/-- Characterization of a lookup after an upsert. -/
theorem tableGet?_upsert (n : String) (f : PokemonStats → PokemonStats)
    (tbl : UsageTable) (m : String) :
    tableGet? (tableUpsert n f tbl) m =
      if n = m then some (f ((tableGet? tbl m).getD PokemonStats.initial))
      else tableGet? tbl m := by
  induction tbl with
  | nil =>
    by_cases h : n = m <;> simp [tableUpsert, tableGet?, h]
  | cons e rest ih =>
    by_cases h1 : e.1 = n
    · by_cases h2 : e.1 = m
      · have hnm : n = m := h1.symm.trans h2
        simp [tableUpsert, tableGet?, h1, h2, hnm]
      · have hnm : ¬ n = m := fun h => h2 (h1.trans h)
        simp [tableUpsert, tableGet?, h1, h2, hnm]
    · by_cases h2 : e.1 = m
      · have hnm : ¬ n = m := fun h => h1 (h2.trans h.symm)
        have hmn : ¬ m = n := fun h => hnm h.symm
        simp [tableUpsert, tableGet?, h1, h2, hnm, hmn]
      · simp [tableUpsert, tableGet?, h1, h2, ih]

/-- An upsert whose update increments `count` adds one to the stored
count of the touched name and leaves every other count unchanged. -/
theorem tableCount_upsert (n : String) (f : PokemonStats → PokemonStats)
    (hf : ∀ s, (f s).count = s.count + 1) (tbl : UsageTable) (m : String) :
    tableCount (tableUpsert n f tbl) m = tableCount tbl m + (if n = m then 1 else 0) := by
  rw [tableCount, tableGet?_upsert]
  by_cases h : n = m
  · rw [if_pos h, if_pos h]
    cases hg : tableGet? tbl m with
    | none => simp [tableCount, hg, hf, PokemonStats.initial]
    | some s => simp [tableCount, hg, hf]
  · rw [if_neg h, if_neg h]
    exact (Nat.add_zero _).symm

/-- Folding one roster adds, for each name, the number of its records in
that roster. -/
theorem tableCount_foldl_roster (pokemon_used : Team) (placing : Nat)
    (ps : List PokemonRecord) :
    ∀ (tbl : UsageTable) (m : String),
      tableCount (ps.foldl (processPokemon pokemon_used placing) tbl) m =
        tableCount tbl m + ps.countP (fun p => decide (p.name = m)) := by
  induction ps with
  | nil => intro tbl m; simp
  | cons p ps ih =>
    intro tbl m
    rw [List.foldl_cons, ih, List.countP_cons, processPokemon,
      tableCount_upsert p.name _ (fun _ => rfl) tbl m]
    by_cases h : p.name = m <;> simp [h] <;> omega

/-- Folding a run of standings rows adds the per-team record counts. -/
theorem tableCount_foldl_standings (l : List (Nat × Team)) :
    ∀ (tbl : UsageTable) (m : String),
      tableCount (l.foldl processTeam tbl) m =
        tableCount tbl m +
          (l.map (fun pt => pt.2.countP (fun p => decide (p.name = m)))).sum := by
  induction l with
  | nil => intro tbl m; simp
  | cons pt l ih =>
    intro tbl m
    rw [List.foldl_cons, ih, List.map_cons, List.sum_cons, processTeam,
      tableCount_foldl_roster]
    omega

/-- Enumeration indices do not affect a sum over the teams. -/
theorem enumFrom_snd_sum (f : Team → Nat) (teams : List Team) :
    ∀ n : Nat, ((List.enumFrom n teams).map (fun pt => f pt.2)).sum = (teams.map f).sum := by
  induction teams with
  | nil => intro n; simp
  | cons t ts ih => intro n; simp [List.enumFrom_cons, ih]

/-- The count stored by `calculate_usage_statistics` for any name is the
total number of roster records carrying that name. -/
theorem calc_tableCount (teams : List Team) (m : String) :
    tableCount (calculate_usage_statistics teams) m =
      (teams.map (fun t => t.countP (fun p => decide (p.name = m)))).sum := by
  rw [calculate_usage_statistics]
  have he : teams.enum = List.enumFrom 0 teams := rfl
  rw [he, tableCount_foldl_standings]
  have h := enumFrom_snd_sum (fun t => t.countP (fun p => decide (p.name = m))) teams 0
  simpa [tableCount, tableGet?] using h

/-- In a roster listing each name at most once, the number of records
with a given name is 1 when the name occurs and 0 otherwise. -/
theorem countP_name_nodup (t : Team) (name : String)
    (h : (t.map PokemonRecord.name).Nodup) :
    t.countP (fun p => decide (p.name = name)) =
      if t.any (fun p => decide (p.name = name)) then 1 else 0 := by
  induction t with
  | nil => simp
  | cons p ps ih =>
    rw [List.map_cons, List.nodup_cons] at h
    obtain ⟨hp, hps⟩ := h
    rw [List.countP_cons, ih hps, List.any_cons]
    by_cases hq : p.name = name
    · have hany : ps.any (fun p => decide (p.name = name)) = false := by
        rw [List.any_eq_false]
        intro a ha
        simp only [decide_eq_true_eq]
        intro haname
        apply hp
        have hmem : a.name ∈ ps.map PokemonRecord.name := List.mem_map_of_mem _ ha
        rwa [haname, ← hq] at hmem
      simp [hq, hany]
    · simp [hq]

/-- A sum of 0/1 indicators is a `countP`. -/
theorem sum_map_ite_one {α : Type} (l : List α) (g : α → Bool) :
    (l.map (fun x => if g x then 1 else 0)).sum = l.countP g := by
  induction l with
  | nil => simp
  | cons x xs ih =>
    rw [List.map_cons, List.sum_cons, List.countP_cons, ih]
    by_cases h : g x = true <;> simp [h]
    omega

/-- C1: when every roster lists each name at most once, the record
`calculate_usage_statistics` stores for a name has `count` equal to the
number of input competitors whose roster contained that name. -/
theorem usage_count_spec (teams : List Team)
    (hnodup : ∀ t ∈ teams, (t.map PokemonRecord.name).Nodup)
    (name : String) (s : PokemonStats)
    (hs : tableGet? (calculate_usage_statistics teams) name = some s) :
    s.count = teams.countP (fun t => t.any (fun p => decide (p.name = name))) := by
  have hc : tableCount (calculate_usage_statistics teams) name = s.count := by
    rw [tableCount, hs]
  rw [← hc, calc_tableCount,
    List.map_congr_left (fun t ht => countP_name_nodup t name (hnodup t ht))]
  exact sum_map_ite_one teams _

/-- C1 witness: in the §8 scenario (`Foo` used by competitors 1 and 2,
`Bar` by competitor 3), the stored record for `Foo` has count 2, the
number of rosters containing `Foo`. -/
theorem usage_count_witness :
    witness_foo_stats.count =
      witness_teams.countP (fun t => t.any (fun p => decide (p.name = "Foo"))) := by
  exact usage_count_spec witness_teams (by decide) "Foo" witness_foo_stats (by decide)

/-! ## C3: item / ability / tera sums equal count -/

/-- A successful lookup returns an entry of the table. -/
theorem tableGet?_mem (tbl : UsageTable) (n : String) (s : PokemonStats)
    (h : tableGet? tbl n = some s) : (n, s) ∈ tbl := by
  induction tbl with
  | nil => exact absurd h (by simp [tableGet?])
  | cons e rest ih =>
    rcases e with ⟨a, b⟩
    by_cases h1 : a = n
    · simp only [tableGet?] at h
      rw [if_pos h1] at h
      rw [h1, Option.some.inj h]
      exact List.mem_cons_self _ _
    · simp only [tableGet?] at h
      rw [if_neg h1] at h
      exact List.mem_cons_of_mem _ (ih h)

/-- `add_or_update_dict` grows the value sum by exactly one. -/
theorem sumValues_add_or_update (d : List (String × Nat)) (k : String) :
    sumValues (add_or_update_dict d k) = sumValues d + 1 := by
  induction d with
  | nil => simp [add_or_update_dict, sumValues]
  | cons e rest ih =>
    by_cases h : e.1 = k
    · simp only [add_or_update_dict, if_pos h, sumValues, List.map_cons, List.sum_cons]
      omega
    · simp only [add_or_update_dict, if_neg h, sumValues, List.map_cons, List.sum_cons] at ih ⊢
      omega

/-- An upsert preserves any per-record predicate that the update
preserves and that holds of an updated fresh record. -/
theorem tablePred_upsert (P : PokemonStats → Prop) (n : String)
    (f : PokemonStats → PokemonStats)
    (hf : ∀ s, P s → P (f s)) (h0 : P (f PokemonStats.initial))
    (tbl : UsageTable) (h : ∀ e ∈ tbl, P e.2) :
    ∀ e ∈ tableUpsert n f tbl, P e.2 := by
  induction tbl with
  | nil =>
    intro e he
    simp only [tableUpsert, List.mem_singleton] at he
    rw [he]
    exact h0
  | cons x rest ih =>
    intro e he
    by_cases h1 : x.1 = n
    · simp only [tableUpsert, if_pos h1] at he
      rcases List.mem_cons.mp he with h2 | h2
      · rw [h2]
        exact hf x.2 (h x (List.mem_cons_self _ _))
      · exact h e (List.mem_cons_of_mem _ h2)
    · simp only [tableUpsert, if_neg h1] at he
      rcases List.mem_cons.mp he with h2 | h2
      · rw [h2]
        exact h x (List.mem_cons_self _ _)
      · exact ih (fun e' he' => h e' (List.mem_cons_of_mem _ he')) e h2

/-- Folding a roster preserves any per-record predicate that the loop
body preserves. -/
theorem tablePred_foldl_roster (P : PokemonStats → Prop)
    (hP : ∀ team pl p s, P s → P (updatePokemonStats team pl p s))
    (h0 : ∀ team pl p, P (updatePokemonStats team pl p PokemonStats.initial))
    (team : Team) (pl : Nat) (ps : List PokemonRecord) :
    ∀ tbl : UsageTable, (∀ e ∈ tbl, P e.2) →
      ∀ e ∈ ps.foldl (processPokemon team pl) tbl, P e.2 := by
  induction ps with
  | nil => intro tbl h e he; exact h e he
  | cons p ps ih =>
    intro tbl h e he
    rw [List.foldl_cons] at he
    exact ih _ (tablePred_upsert P p.name _ (hP team pl p) (h0 team pl p) tbl h) e he

/-- Folding the standings preserves any per-record predicate that the
loop body preserves. -/
theorem tablePred_foldl_standings (P : PokemonStats → Prop)
    (hP : ∀ team pl p s, P s → P (updatePokemonStats team pl p s))
    (h0 : ∀ team pl p, P (updatePokemonStats team pl p PokemonStats.initial))
    (l : List (Nat × Team)) :
    ∀ tbl : UsageTable, (∀ e ∈ tbl, P e.2) →
      ∀ e ∈ l.foldl processTeam tbl, P e.2 := by
  induction l with
  | nil => intro tbl h e he; exact h e he
  | cons pt l ih =>
    intro tbl h e he
    rw [List.foldl_cons] at he
    exact ih _ (tablePred_foldl_roster P hP h0 pt.2 pt.1 pt.2 tbl h) e he

/-- Any per-record predicate preserved by the loop body and established
on fresh records holds of every record of the aggregated table. -/
theorem tablePred_calc (P : PokemonStats → Prop)
    (hP : ∀ team pl p s, P s → P (updatePokemonStats team pl p s))
    (h0 : ∀ team pl p, P (updatePokemonStats team pl p PokemonStats.initial))
    (teams : List Team) :
    ∀ e ∈ calculate_usage_statistics teams, P e.2 :=
  tablePred_foldl_standings P hP h0 teams.enum []
    (fun e he => absurd he (List.not_mem_nil e))

/-- The loop body keeps the item / ability / tera sums equal to `count`. -/
theorem statsBalanced_update (team : Team) (pl : Nat) (p : PokemonRecord)
    (s : PokemonStats) (h : statsBalanced s) :
    statsBalanced (updatePokemonStats team pl p s) := by
  obtain ⟨h1, h2, h3⟩ := h
  exact ⟨by simp [updatePokemonStats, sumValues_add_or_update, h1],
    by simp [updatePokemonStats, sumValues_add_or_update, h2],
    by simp [updatePokemonStats, sumValues_add_or_update, h3]⟩

/-- The fresh record is balanced (all sums and the count are 0). -/
theorem statsBalanced_initial : statsBalanced PokemonStats.initial :=
  ⟨rfl, rfl, rfl⟩

/-- C3: in every aggregated record, the item, ability and tera
occurrence counts each sum to the record's `count` (the absent tera type
having been replaced by the `'default'` token before counting). -/
theorem usage_sub_dicts_sum_to_count (teams : List Team) (name : String)
    (s : PokemonStats)
    (hs : tableGet? (calculate_usage_statistics teams) name = some s) :
    sumValues s.item = s.count ∧ sumValues s.ability = s.count ∧
      sumValues s.tera = s.count :=
  tablePred_calc statsBalanced
    (fun team pl p s hb => statsBalanced_update team pl p s hb)
    (fun team pl p => statsBalanced_update team pl p _ statsBalanced_initial)
    teams (name, s) (tableGet?_mem _ _ _ hs)

/-- C3 witness: the `Foo` record of the §8 scenario has item, ability
and tera sums all equal to its count 2. -/
theorem usage_sub_dicts_witness :
    sumValues witness_foo_stats.item = witness_foo_stats.count ∧
      sumValues witness_foo_stats.ability = witness_foo_stats.count ∧
      sumValues witness_foo_stats.tera = witness_foo_stats.count :=
  usage_sub_dicts_sum_to_count witness_teams "Foo" witness_foo_stats (by decide)

/-! ## C4: teammate usage is symmetric -/

/-- `add_or_update_dict` adds one to the touched key and leaves every
other key's value unchanged. -/
theorem dictGet_add_or_update (d : List (String × Nat)) (k m : String) :
    dictGet (add_or_update_dict d k) m = dictGet d m + (if k = m then 1 else 0) := by
  induction d with
  | nil => by_cases h : k = m <;> simp [add_or_update_dict, dictGet, h]
  | cons e rest ih =>
    by_cases h1 : e.1 = k
    · by_cases h2 : e.1 = m
      · have hkm : k = m := h1.symm.trans h2
        simp [add_or_update_dict, dictGet, h1, h2, hkm]
      · have hkm : ¬ k = m := fun h => h2 (h1.trans h)
        simp [add_or_update_dict, dictGet, h1, h2, hkm]
    · by_cases h2 : e.1 = m
      · have hkm : ¬ k = m := fun h => h1 (h2.trans h.symm)
        have hmk : ¬ m = k := fun h => hkm h.symm
        simp [add_or_update_dict, dictGet, h1, h2, hkm, hmk]
      · simp [add_or_update_dict, dictGet, h1, h2, ih]

/-- Folding `add_or_update_dict` over a name list adds the number of
occurrences of each key. -/
theorem dictGet_foldl_names (names : List String) :
    ∀ (d : List (String × Nat)) (m : String),
      dictGet (names.foldl add_or_update_dict d) m =
        dictGet d m + names.countP (fun x => decide (x = m)) := by
  induction names with
  | nil => intro d m; simp
  | cons n ns ih =>
    intro d m
    rw [List.foldl_cons, ih, List.countP_cons, dictGet_add_or_update]
    by_cases h : n = m <;> simp [h] <;> omega

/-- Processing one roster entry adds its teammate-name occurrences to
the teammate dict of its own name and touches no other record. -/
theorem teammateCount_processPokemon (team : Team) (pl : Nat) (p : PokemonRecord)
    (tbl : UsageTable) (a b : String) :
    teammateCount (processPokemon team pl tbl p) a b =
      teammateCount tbl a b +
        (if p.name = a
          then (teammate_names team p.name).countP (fun x => decide (x = b))
          else 0) := by
  rw [teammateCount, processPokemon, tableGet?_upsert]
  by_cases h : p.name = a
  · rw [if_pos h, if_pos h]
    cases hg : tableGet? tbl a with
    | none =>
      simp [teammateCount, hg, updatePokemonStats, PokemonStats.initial,
        dictGet_foldl_names, dictGet]
    | some s => simp [teammateCount, hg, updatePokemonStats, dictGet_foldl_names]
  · rw [if_neg h, if_neg h]
    exact (Nat.add_zero _).symm

/-- Folding a roster adds, to the `(a, b)` teammate count, the number of
records named `a` times the number of `b`s in `a`'s teammate list. -/
theorem teammateCount_foldl_roster (team : Team) (pl : Nat) (ps : List PokemonRecord) :
    ∀ (tbl : UsageTable) (a b : String),
      teammateCount (ps.foldl (processPokemon team pl) tbl) a b =
        teammateCount tbl a b +
          ps.countP (fun p => decide (p.name = a)) *
            (teammate_names team a).countP (fun x => decide (x = b)) := by
  induction ps with
  | nil => intro tbl a b; simp
  | cons p ps ih =>
    intro tbl a b
    rw [List.foldl_cons, ih, teammateCount_processPokemon, List.countP_cons]
    by_cases h : p.name = a
    · rw [if_pos h, h]
      simp only [h, decide_True, if_true]
      ring
    · rw [if_neg h]
      simp [h]

/-- Folding the standings adds the per-team teammate contributions. -/
theorem teammateCount_foldl_standings (l : List (Nat × Team)) :
    ∀ (tbl : UsageTable) (a b : String),
      teammateCount (l.foldl processTeam tbl) a b =
        teammateCount tbl a b +
          (l.map (fun pt =>
            pt.2.countP (fun p => decide (p.name = a)) *
              (teammate_names pt.2 a).countP (fun x => decide (x = b)))).sum := by
  induction l with
  | nil => intro tbl a b; simp
  | cons pt l ih =>
    intro tbl a b
    rw [List.foldl_cons, ih, List.map_cons, List.sum_cons, processTeam,
      teammateCount_foldl_roster]
    omega

/-- The number of `b`s in the teammate list of `a` is the number of
records named `b`, unless `a = b` (a record never lists itself). -/
theorem teammate_names_countP (team : Team) (a b : String) :
    (teammate_names team a).countP (fun x => decide (x = b)) =
      if a = b then 0 else team.countP (fun p => decide (p.name = b)) := by
  rw [teammate_names, List.countP_map, List.countP_filter]
  by_cases h : a = b
  · rw [if_pos h]
    rw [List.countP_eq_zero]
    intro p hp
    subst h
    simp [Function.comp]
  · rw [if_neg h]
    apply List.countP_congr
    intro p hp
    by_cases h2 : p.name = b
    · have hna : ¬ p.name = a := fun hpa => h (hpa.symm.trans h2)
      have hba : ¬ b = a := fun hba => h hba.symm
      simp [Function.comp, h2, hna, hba]
    · simp [Function.comp, h2]

/-- The per-team teammate contribution is symmetric in the two names. -/
theorem teammate_term_symm (team : Team) (a b : String) :
    team.countP (fun p => decide (p.name = a)) *
        (teammate_names team a).countP (fun x => decide (x = b)) =
      team.countP (fun p => decide (p.name = b)) *
        (teammate_names team b).countP (fun x => decide (x = a)) := by
  rw [teammate_names_countP, teammate_names_countP]
  by_cases h : a = b
  · rw [if_pos h, if_pos h.symm]
    simp
  · rw [if_neg h, if_neg (fun hba => h hba.symm)]
    exact Nat.mul_comm _ _

/-- C4: teammate usage is symmetric: in any aggregated table, the count
stored for `b` in `a`'s teammate dict (0 when either is absent) equals
the count stored for `a` in `b`'s teammate dict. -/
theorem teammate_usage_symmetric (teams : List Team) (a b : String) :
    teammateCount (calculate_usage_statistics teams) a b =
      teammateCount (calculate_usage_statistics teams) b a := by
  rw [calculate_usage_statistics]
  have he : teams.enum = List.enumFrom 0 teams := rfl
  rw [he, teammateCount_foldl_standings, teammateCount_foldl_standings]
  have h0 : ∀ x y, teammateCount ([] : UsageTable) x y = 0 := fun x y => rfl
  rw [h0, h0]
  exact congrArg (fun l => 0 + List.sum l)
    (List.map_congr_left (fun pt _ => teammate_term_symm pt.2 a b))

/-! ## C6: adaptive label padding -/

/-- Indexing into the running-padding list: the padding at position
`i + 1` is obtained from the padding at position `i` by one
`next_label_padding` step on the two adjacent points. -/
theorem label_paddings_from_step (ps : List UsagePoint) :
    ∀ (prev : UsagePoint) (pad : ℚ) (i : Nat) (a b : UsagePoint) (x : ℚ),
      (prev :: ps).get? i = some a → (prev :: ps).get? (i + 1) = some b →
      (pad :: label_paddings_from prev pad ps).get? i = some x →
      (pad :: label_paddings_from prev pad ps).get? (i + 1) =
        some (next_label_padding x a b) := by
  induction ps with
  | nil =>
    intro prev pad i a b x h1 h2 h3
    rcases i with _ | i
    · exact absurd h2 (by simp)
    · exact absurd h1 (by simp)
  | cons q qs ih =>
    intro prev pad i a b x h1 h2 h3
    rcases i with _ | i
    · simp only [List.get?] at h1 h2 h3
      rw [← Option.some.inj h1, ← Option.some.inj h2, ← Option.some.inj h3]
      rfl
    · simp only [List.get?] at h1 h2 h3 ⊢
      simp only [label_paddings_from] at h3 ⊢
      exact ih q (next_label_padding pad prev q) i a b x h1 h2 h3

/-- C6: in the label-placement pass, the first point's label uses the
default padding; each later point's padding is the previous running
padding plus the fixed increment when the point lies within the
proximity threshold of its predecessor, and the default otherwise.  On
the §8 scenario (three points 0.005 apart, then one 0.05 away) the
paddings are default, default + increment, default + 2·increment —
strictly increasing — and the fourth resets to the default. -/
theorem label_padding_spec :
    (∀ (pts : List UsagePoint) (p : UsagePoint), pts.get? 0 = some p →
        (label_paddings pts).get? 0 = some DEFAULT_LABEL_PADDING) ∧
    (∀ (pts : List UsagePoint) (i : Nat) (a b : UsagePoint) (x : ℚ),
        pts.get? i = some a → pts.get? (i + 1) = some b →
        (label_paddings pts).get? i = some x →
        (label_paddings pts).get? (i + 1) = some (next_label_padding x a b)) ∧
    label_paddings scenario_points =
      [DEFAULT_LABEL_PADDING, DEFAULT_LABEL_PADDING + LABEL_PADDING_INCREMENT,
        DEFAULT_LABEL_PADDING + 2 * LABEL_PADDING_INCREMENT, DEFAULT_LABEL_PADDING] ∧
    DEFAULT_LABEL_PADDING < DEFAULT_LABEL_PADDING + LABEL_PADDING_INCREMENT ∧
    DEFAULT_LABEL_PADDING + LABEL_PADDING_INCREMENT <
      DEFAULT_LABEL_PADDING + 2 * LABEL_PADDING_INCREMENT := by
  refine ⟨?_, ?_, ?_, ?_, ?_⟩
  · intro pts p h
    cases pts with
    | nil => exact absurd h (by simp)
    | cons q qs => rfl
  · intro pts i a b x h1 h2 h3
    cases pts with
    | nil => exact absurd h1 (by simp)
    | cons q qs =>
      simp only [label_paddings] at h3 ⊢
      exact label_paddings_from_step qs q DEFAULT_LABEL_PADDING i a b x h1 h2 h3
  · simp only [scenario_points, label_paddings, label_paddings_from]
    norm_num [next_label_padding, distSq, scenario_p0, scenario_p1, scenario_p2,
      scenario_p3, DEFAULT_LABEL_PADDING, LABEL_PADDING_INCREMENT,
      POINT_DISTANCE_LABEL_ADJUSTMENT_THRESHOLD]
  · norm_num [DEFAULT_LABEL_PADDING, LABEL_PADDING_INCREMENT]
  · norm_num [DEFAULT_LABEL_PADDING, LABEL_PADDING_INCREMENT]

/-- C6 witness: the second scenario point is within the threshold of the
first, so its padding is the default plus one increment. -/
theorem label_padding_witness :
    (label_paddings scenario_points).get? 1 =
      some (next_label_padding DEFAULT_LABEL_PADDING scenario_p0 scenario_p1) :=
  label_padding_spec.2.1 scenario_points 0 scenario_p0 scenario_p1
    DEFAULT_LABEL_PADDING rfl rfl rfl

/-! ## C5: visualizer point selection and ordering -/

/-- A lookup succeeds exactly when the name is among the table keys. -/
theorem tableGet?_isSome_iff (tbl : UsageTable) (n : String) :
    (tableGet? tbl n).isSome = true ↔ n ∈ tbl.map Prod.fst := by
  induction tbl with
  | nil => simp [tableGet?]
  | cons e rest ih =>
    by_cases h : e.1 = n
    · simp [tableGet?, h]
    · have hne : ¬ n = e.1 := fun hn => h hn.symm
      simp [tableGet?, h, ih, hne]

/-- A successful point-construction run labels each point with its name,
in order, and every produced point is the one built for its label. -/
theorem build_usage_points_props (tu : TournamentUsage) (ns : List String) :
    ∀ ps, build_usage_points tu ns = some ps →
      ps.map UsagePoint.label = ns ∧
        ∀ pt ∈ ps, build_usage_point tu pt.label = some pt := by
  induction ns with
  | nil =>
    intro ps h
    simp only [build_usage_points] at h
    rw [← Option.some.inj h]
    exact ⟨rfl, by simp⟩
  | cons n ns ih =>
    intro ps h
    simp only [build_usage_points] at h
    cases hb : build_usage_point tu n with
    | none => rw [hb] at h; exact absurd h (by simp)
    | some p =>
      rw [hb] at h
      cases hr : build_usage_points tu ns with
      | none => rw [hr] at h; exact absurd h (by simp)
      | some ps2 =>
        rw [hr] at h
        obtain ⟨hmap, hall⟩ := ih ps2 hr
        have hlabel : p.label = n := by
          rw [build_usage_point] at hb
          cases hg : tableGet? tu.all_usage n with
          | none => rw [hg] at hb; exact absurd hb (by simp)
          | some s =>
            rw [hg] at hb
            rw [← Option.some.inj hb]
        rw [← Option.some.inj h]
        refine ⟨by rw [List.map_cons, hmap, hlabel], ?_⟩
        intro pt hpt
        rcases List.mem_cons.mp hpt with h2 | h2
        · rw [h2, hlabel, hb]
        · exact hall pt h2

/-- The selected names are exactly the top-cut keys together with the
full-field entries at or above the 3% floor. -/
theorem mem_pokemon_to_show (tu : TournamentUsage) (name : String) :
    name ∈ pokemon_to_show tu ↔
      name ∈ tu.top_cut_usage.map Prod.fst ∨
        ∃ e ∈ tu.all_usage, e.1 = name ∧
          (3 : ℚ) / 100 ≤ (e.2.count : ℚ) / (tu.size : ℚ) := by
  rw [pokemon_to_show, List.mem_append]
  constructor
  · rintro (h | h)
    · exact Or.inl h
    · rcases List.mem_map.mp h with ⟨e, he, hname⟩
      rcases List.mem_filter.mp he with ⟨hmem, hpred⟩
      rw [Bool.and_eq_true] at hpred
      exact Or.inr ⟨e, hmem, hname, of_decide_eq_true hpred.1⟩
  · rintro (h | ⟨e, he, hname, hrate⟩)
    · exact Or.inl h
    · by_cases htop : name ∈ tu.top_cut_usage.map Prod.fst
      · exact Or.inl htop
      · refine Or.inr (List.mem_map.mpr ⟨e, List.mem_filter.mpr ⟨he, ?_⟩, hname⟩)
        rw [Bool.and_eq_true]
        refine ⟨decide_eq_true hrate, ?_⟩
        have hnc : ¬ (tu.top_cut_usage.map Prod.fst).contains e.1 = true := by
          rw [List.contains_iff_exists_mem_beq]
          rintro ⟨a, ha, hbeq⟩
          exact htop (hname ▸ (beq_iff_eq.mp hbeq ▸ ha))
        have hfalse : (tu.top_cut_usage.map Prod.fst).contains e.1 = false :=
          Bool.eq_false_iff.mpr hnc
        rw [hfalse]
        rfl
  
/-- The descending point comparator holds iff the top-cut rate is
strictly larger, or the top-cut rates tie and the total rate is no
smaller. -/
theorem usage_point_desc_iff (a b : UsagePoint) :
    usage_point_desc a b = true ↔
      (b.top_cut_usage_rate < a.top_cut_usage_rate ∨
        (a.top_cut_usage_rate = b.top_cut_usage_rate ∧
          b.total_usage_rate ≤ a.total_usage_rate)) := by
  simp only [usage_point_desc, lexLEb, Bool.or_eq_true, Bool.and_eq_true, decide_eq_true_eq]
  constructor
  · rintro (h | ⟨h1, h2⟩)
    · exact Or.inl h
    · exact Or.inr ⟨h1.symm, h2⟩
  · rintro (h | ⟨h1, h2⟩)
    · exact Or.inl h
    · exact Or.inr ⟨h1.symm, h2⟩

/-- C5: for a successful `create_graph` run, the plotted points are
labelled exactly by the union of the top-cut keys and the ≥3% full-field
entries; each point's coordinates are `full_field_count / field_size`
and `top_cut_count / top_cut_size` (0 when absent from the top cut); and
the list is ordered descending by `(top_cut_usage_rate,
total_usage_rate)`. -/
theorem create_graph_point_selection (tu : TournamentUsage) (pts : List UsagePoint)
    (h : create_graph_points tu = some pts) :
    (∀ name : String,
        (∃ pt ∈ pts, pt.label = name) ↔
          (name ∈ tu.top_cut_usage.map Prod.fst ∨
            ∃ e ∈ tu.all_usage, e.1 = name ∧
              (3 : ℚ) / 100 ≤ (e.2.count : ℚ) / (tu.size : ℚ))) ∧
      (∀ pt ∈ pts, ∃ s, tableGet? tu.all_usage pt.label = some s ∧
          pt.total_usage_rate = (s.count : ℚ) / (tu.size : ℚ) ∧
          ((∃ t, tableGet? tu.top_cut_usage pt.label = some t ∧
              pt.top_cut_usage_rate = (t.count : ℚ) / (tu.top_cut_size : ℚ)) ∨
            (tableGet? tu.top_cut_usage pt.label = none ∧
              pt.top_cut_usage_rate = 0))) ∧
      pts.Pairwise (fun a b =>
        b.top_cut_usage_rate < a.top_cut_usage_rate ∨
          (a.top_cut_usage_rate = b.top_cut_usage_rate ∧
            b.total_usage_rate ≤ a.total_usage_rate)) := by
  rw [create_graph_points] at h
  cases hb : build_usage_points tu (pokemon_to_show tu) with
  | none => rw [hb] at h; exact absurd h (by simp)
  | some built =>
    rw [hb] at h
    simp only [Option.map_some'] at h
    have hpts : pts = built.mergeSort usage_point_desc := (Option.some.inj h).symm
    subst hpts
    obtain ⟨hmap, hall⟩ := build_usage_points_props tu (pokemon_to_show tu) built hb
    have hperm : (built.mergeSort usage_point_desc).Perm built :=
      List.mergeSort_perm built usage_point_desc
    refine ⟨?_, ?_, ?_⟩
    · intro name
      constructor
      · rintro ⟨pt, hpt, rfl⟩
        have h1 : pt ∈ built := hperm.mem_iff.mp hpt
        have h2 : pt.label ∈ pokemon_to_show tu := by
          rw [← hmap]
          exact List.mem_map_of_mem UsagePoint.label h1
        exact (mem_pokemon_to_show tu pt.label).mp h2
      · intro hsel
        have h1 : name ∈ pokemon_to_show tu := (mem_pokemon_to_show tu name).mpr hsel
        rw [← hmap] at h1
        rcases List.mem_map.mp h1 with ⟨pt, hpt, hl⟩
        exact ⟨pt, hperm.mem_iff.mpr hpt, hl⟩
    · intro pt hpt
      have h1 : pt ∈ built := hperm.mem_iff.mp hpt
      have h2 := hall pt h1
      rw [build_usage_point] at h2
      cases hg : tableGet? tu.all_usage pt.label with
      | none => rw [hg] at h2; exact absurd h2 (by simp)
      | some s =>
        rw [hg] at h2
        have h3 := Option.some.inj h2
        refine ⟨s, rfl, (congrArg UsagePoint.total_usage_rate h3).symm, ?_⟩
        have h4 := (congrArg UsagePoint.top_cut_usage_rate h3).symm
        cases hg2 : tableGet? tu.top_cut_usage pt.label with
        | none =>
          rw [hg2] at h4
          exact Or.inr ⟨rfl, h4⟩
        | some t =>
          rw [hg2] at h4
          exact Or.inl ⟨t, rfl, h4⟩
    · have hs := @List.sorted_mergeSort UsagePoint usage_point_desc
        (fun a b c h1 h2 => lexLEb_trans _ _ _ h2 h1)
        (fun a b => by rw [Bool.or_comm]; exact lexLEb_total _ _) built
      exact hs.imp (fun hxy => (usage_point_desc_iff _ _).mp hxy)

/-- C5 witness: for the one-entity summary `witness_tu`, the run
produces exactly the point `witness_point` and its coordinates are the
two usage rates. -/
theorem create_graph_witness :
    ∃ s, tableGet? witness_tu.all_usage witness_point.label = some s ∧
      witness_point.total_usage_rate = (s.count : ℚ) / (witness_tu.size : ℚ) ∧
      ((∃ t, tableGet? witness_tu.top_cut_usage witness_point.label = some t ∧
          witness_point.top_cut_usage_rate = (t.count : ℚ) / (witness_tu.top_cut_size : ℚ)) ∨
        (tableGet? witness_tu.top_cut_usage witness_point.label = none ∧
          witness_point.top_cut_usage_rate = 0)) := by
  have hshow : pokemon_to_show witness_tu = ["A"] := by
    rw [pokemon_to_show]
    simp [witness_tu]
  have hcg : create_graph_points witness_tu = some [witness_point] := by
    rw [create_graph_points, hshow]
    simp only [build_usage_points, build_usage_point]
    norm_num [witness_tu, witness_stats_one, tableGet?, witness_point,
      List.mergeSort_singleton]
  have h := create_graph_point_selection witness_tu [witness_point] hcg
  exact h.2.1 witness_point (List.mem_singleton_self _)

/-! ## C10: top-cut entities are full-field entities -/

/-- Every record of an aggregated table has been counted at least once. -/
theorem calc_count_pos (teams : List Team) :
    ∀ e ∈ calculate_usage_statistics teams, 1 ≤ e.2.count :=
  tablePred_calc (fun s => 1 ≤ s.count)
    (fun _ _ _ s _ => by simp [updatePokemonStats])
    (fun _ _ _ => by simp [updatePokemonStats])
    teams

/-- Aggregating a prefix of the standings never counts a name more often
than aggregating the full standings. -/
theorem calc_tableCount_take_le (teams : List Team) (k : Nat) (m : String) :
    tableCount (calculate_usage_statistics (teams.take k)) m ≤
      tableCount (calculate_usage_statistics teams) m := by
  rw [calc_tableCount, calc_tableCount]
  conv_rhs => rw [← List.take_append_drop k teams]
  rw [List.map_append, List.sum_append]
  exact Nat.le_add_right _ _

/-- A key of the prefix aggregation is a key of the full aggregation. -/
theorem calc_take_key_sub (teams : List Team) (k : Nat) (name : String)
    (h : name ∈ (calculate_usage_statistics (teams.take k)).map Prod.fst) :
    name ∈ (calculate_usage_statistics teams).map Prod.fst := by
  have hsome := (tableGet?_isSome_iff _ _).mpr h
  obtain ⟨s', hs'⟩ := Option.isSome_iff_exists.mp hsome
  have hpos : 1 ≤ s'.count :=
    calc_count_pos (teams.take k) (name, s') (tableGet?_mem _ _ _ hs')
  have h1 : 1 ≤ tableCount (calculate_usage_statistics (teams.take k)) name := by
    rw [tableCount, hs']
    exact hpos
  have h2 : 1 ≤ tableCount (calculate_usage_statistics teams) name :=
    le_trans h1 (calc_tableCount_take_le teams k name)
  rw [tableCount] at h2
  cases hg : tableGet? (calculate_usage_statistics teams) name with
  | none => rw [hg] at h2; exact absurd h2 (by norm_num)
  | some s2 =>
    apply (tableGet?_isSome_iff _ _).mp
    rw [hg]
    rfl

/-- When every selected name resolves in the full-field table, the whole
point-construction loop succeeds. -/
theorem build_usage_points_isSome (tu : TournamentUsage) (ns : List String)
    (h : ∀ n ∈ ns, (tableGet? tu.all_usage n).isSome = true) :
    (build_usage_points tu ns).isSome = true := by
  induction ns with
  | nil => rfl
  | cons n ns ih =>
    obtain ⟨s, hs⟩ := Option.isSome_iff_exists.mp (h n (List.mem_cons_self _ _))
    have hr := ih (fun m hm => h m (List.mem_cons_of_mem _ hm))
    obtain ⟨ps, hps⟩ := Option.isSome_iff_exists.mp hr
    simp [build_usage_points, build_usage_point, hs, hps]

/-- C10: when the top cut is a prefix of the standings, every entity of
the top-cut table resolves in the full-field table with count at least
1, and the visualizer's point construction succeeds on every selected
entity; moreover no rate computation divides by zero: whenever the
full-field table is consulted at all (it is nonempty) the field size is
at least 1, whenever a top-cut lookup hits, the top-cut size is at
least 1, and every selected entity's total-rate denominator is at
least 1. -/
theorem top_cut_prefix_lookup_safe (teams : List Team) (k : Nat) (tid tname : String) :
    (∀ name s,
        tableGet? (tournament_usage_of teams k tid tname).top_cut_usage name = some s →
          ∃ s2, tableGet? (tournament_usage_of teams k tid tname).all_usage name = some s2 ∧
            1 ≤ s2.count) ∧
      (create_graph_points (tournament_usage_of teams k tid tname)).isSome = true ∧
      ((tournament_usage_of teams k tid tname).all_usage ≠ [] →
        1 ≤ (tournament_usage_of teams k tid tname).size) ∧
      (∀ name s,
        tableGet? (tournament_usage_of teams k tid tname).top_cut_usage name = some s →
          1 ≤ (tournament_usage_of teams k tid tname).top_cut_size) ∧
      (∀ name ∈ pokemon_to_show (tournament_usage_of teams k tid tname),
        1 ≤ (tournament_usage_of teams k tid tname).size) := by
  have hkeysub : ∀ name : String,
      name ∈ (tournament_usage_of teams k tid tname).top_cut_usage.map Prod.fst →
        name ∈ (tournament_usage_of teams k tid tname).all_usage.map Prod.fst := by
    intro name hn
    have h1 : name ∈ (calculate_usage_statistics (teams.take k)).map Prod.fst :=
      ((List.mergeSort_perm _ _).map Prod.fst).mem_iff.mp hn
    have h2 := calc_take_key_sub teams k name h1
    exact ((List.mergeSort_perm _ _).map Prod.fst).mem_iff.mpr h2
  have hsize : (tournament_usage_of teams k tid tname).all_usage ≠ [] →
      1 ≤ (tournament_usage_of teams k tid tname).size := by
    intro hne
    cases teams with
    | nil =>
      have hnil : (tournament_usage_of ([] : List Team) k tid tname).all_usage = [] := by
        show rank_usage (calculate_usage_statistics []) = []
        rw [rank_usage]
        exact List.mergeSort_nil
      exact absurd hnil hne
    | cons t ts =>
      show 1 ≤ (t :: ts).length
      simp
  refine ⟨?_, ?_, hsize, ?_, ?_⟩
  · intro name s hs
    have hm1 : (name, s) ∈ (tournament_usage_of teams k tid tname).top_cut_usage :=
      tableGet?_mem _ _ _ hs
    have hkey : name ∈ (tournament_usage_of teams k tid tname).top_cut_usage.map Prod.fst :=
      List.mem_map_of_mem Prod.fst hm1
    have hkey2 := hkeysub name hkey
    obtain ⟨s2, hs2⟩ := Option.isSome_iff_exists.mp ((tableGet?_isSome_iff _ _).mpr hkey2)
    refine ⟨s2, hs2, ?_⟩
    have hm2 : (name, s2) ∈ (tournament_usage_of teams k tid tname).all_usage :=
      tableGet?_mem _ _ _ hs2
    have hm3 : (name, s2) ∈ calculate_usage_statistics teams :=
      (List.mergeSort_perm _ _).mem_iff.mp hm2
    exact calc_count_pos teams (name, s2) hm3
  · have hall : ∀ n ∈ pokemon_to_show (tournament_usage_of teams k tid tname),
        (tableGet? (tournament_usage_of teams k tid tname).all_usage n).isSome = true := by
      intro n hn
      rcases (mem_pokemon_to_show _ n).mp hn with h | ⟨e, he, hname, _⟩
      · exact (tableGet?_isSome_iff _ _).mpr (hkeysub n h)
      · exact (tableGet?_isSome_iff _ _).mpr (hname ▸ List.mem_map_of_mem Prod.fst he)
    rw [create_graph_points]
    cases hb : build_usage_points (tournament_usage_of teams k tid tname)
        (pokemon_to_show (tournament_usage_of teams k tid tname)) with
    | none =>
      have := build_usage_points_isSome _ _ hall
      rw [hb] at this
      exact absurd this (by simp)
    | some built => rfl
  · intro name s hs
    cases htake : teams.take k with
    | nil =>
      have hnil : (tournament_usage_of teams k tid tname).top_cut_usage = [] := by
        show rank_usage (calculate_usage_statistics (teams.take k)) = []
        rw [htake, rank_usage]
        exact List.mergeSort_nil
      rw [hnil] at hs
      exact absurd hs (by simp [tableGet?])
    | cons t ts =>
      show 1 ≤ (teams.take k).length
      rw [htake]
      simp
  · intro name hn
    apply hsize
    rcases (mem_pokemon_to_show _ name).mp hn with h | ⟨e, he, _, _⟩
    · have hkey := hkeysub name h
      intro hnil
      rw [hnil] at hkey
      exact absurd hkey (by simp)
    · exact List.ne_nil_of_mem he

/-- C10 witness: taking the top-1 cut of the §8 scenario, the top-cut
entity `Foo` resolves in the full-field table with a positive count,
and both rate denominators (top-cut size and field size) are at
least 1. -/
theorem top_cut_prefix_lookup_witness :
    (∃ s2, tableGet? (tournament_usage_of witness_teams 1 "t" "T").all_usage "Foo" = some s2 ∧
        1 ≤ s2.count) ∧
      1 ≤ (tournament_usage_of witness_teams 1 "t" "T").top_cut_size ∧
      1 ≤ (tournament_usage_of witness_teams 1 "t" "T").size := by
  have hcalc : calculate_usage_statistics (witness_teams.take 1) =
      [("Foo", witness_stats_one)] := by decide
  have hs : tableGet? (tournament_usage_of witness_teams 1 "t" "T").top_cut_usage "Foo" =
      some witness_stats_one := by
    show tableGet?
      (rank_usage (calculate_usage_statistics (witness_teams.take 1))) "Foo" = _
    rw [hcalc, rank_usage, List.mergeSort_singleton]
    decide
  have h := top_cut_prefix_lookup_safe witness_teams 1 "t" "T"
  obtain ⟨s2, hs2, hc2⟩ := h.1 "Foo" witness_stats_one hs
  exact ⟨⟨s2, hs2, hc2⟩, h.2.2.2.1 "Foo" witness_stats_one hs,
    h.2.2.1 (List.ne_nil_of_mem (tableGet?_mem _ _ _ hs2))⟩
